import Mathlib

/-!
Verification of the synqjs job-queue core: a Redis hash of job records
(`jobs:hash`), a Redis list of pending job ids (`jobs:queue`), and the
atomic Lua scripts `add-job.lua`, `process-jobs.lua`, `cancel-job.lua`
together with the JavaScript wrappers `submitJob` / `cancelJob`
(src/queue.js) and the worker completion step (worker.js).

Field values taken from Redis are JSON objects; absent JSON fields are
modelled with `Option`.  All scripts run atomically in Redis, so each is
one Lean function from store to store, and concurrency is modelled as an
arbitrary interleaving (a list) of these atomic steps.
-/

namespace Synq

/-- A job record as stored (JSON-encoded) in the `jobs:hash` Redis hash.
`submitJob` writes only `command` and `createdAt`; the other fields are
absent until some later operation sets them, hence the `Option` types.
`status` is a plain string in the source (`"pending"`, `"running"`,
`"succeeded"`, `"failed"`, `"cancelled"`). -/
structure JobRec where
  command : String
  createdAt : String
  status : Option String := none
  startedAt : Option Nat := none
  finishedAt : Option String := none
  cancelledAt : Option String := none
  output : Option String := none
deriving Repr, DecidableEq

/-- The shared Redis state the scripts operate on: the `jobs:hash` hash
(an association list keyed by job id) and the `jobs:queue` list (front of
the Lean list = head of the Redis list, i.e. `LINDEX 0` / `LPOP` side;
`RPUSH` appends at the back). -/
structure Store where
  hash : List (String × JobRec)
  queue : List String
deriving Repr, DecidableEq

/-- The empty Redis state: no records, empty queue. -/
def Store.empty : Store := { hash := [], queue := [] }

/-- `HGET`: look a key up in the hash. -/
def hget (h : List (String × JobRec)) (k : String) : Option JobRec :=
  match h with
  | [] => none
  | (k', v) :: t => if k' = k then some v else hget t k

/-- `HSET`: overwrite the value stored under a key, or insert the key if
it is absent. -/
def hset (h : List (String × JobRec)) (k : String) (v : JobRec) :
    List (String × JobRec) :=
  match h with
  | [] => [(k, v)]
  | (k', v') :: t => if k' = k then (k, v) :: t else (k', v') :: hset t k v

/-- `HEXISTS`: key membership in the hash. -/
def hexists (h : List (String × JobRec)) (k : String) : Bool :=
  (hget h k).isSome

/-- `add-job.lua` (the script `submitJob` runs via
`redis.defineCommand("enqueueJob", ...)`): if the id already exists in
the hash return `"exists"`, otherwise `HSET` the payload and `RPUSH` the
id onto the queue and return `"queued"`. -/
def enqueueJob (s : Store) (id : String) (payload : JobRec) :
    Store × String :=
  if hexists s.hash id then (s, "exists")
  else ({ hash := hset s.hash id payload, queue := s.queue ++ [id] }, "queued")

/-- The payload `submitJob` (src/queue.js) builds:
`JSON.stringify({ command, createdAt: new Date() })`.  Note that no
`status` field is written. -/
def submitPayload (command createdAt : String) : JobRec :=
  { command := command, createdAt := createdAt }

/-- `submitJob` (src/queue.js): build the payload and run `add-job.lua`
with a fresh uuid-based id.  The id and the wall-clock `createdAt` are
parameters here. -/
def submitJob (s : Store) (id command createdAt : String) : Store × String :=
  enqueueJob s id (submitPayload command createdAt)

/-- Result of `process-jobs.lua`: either the claimed job
(`{jobID, command}`) or an error object (`{error = ...}`). -/
inductive ProcResult where
  | ok (jobID command : String)
  | err (e : String)
deriving Repr, DecidableEq

/-- `process-jobs.lua` (the `LINDEX`-based variant run by the worker):
read the queue head with `LINDEX 0`; if the queue is empty return
`error "no job found"`; if the head's record is missing return
`error "job not found"`; if its `status` is `"running"` return
`error "job already running"`; if its `status` is anything other than
`"pending"` (including absent) return `error "job not runnable"`;
otherwise `LPOP` the head, set `status = "running"` and
`startedAt = TIME`, `HSET` the record back and return the job. -/
def processJobs (s : Store) (t : Nat) : Store × ProcResult :=
  match s.queue with
  | [] => (s, .err "no job found")
  | jobID :: rest =>
    match hget s.hash jobID with
    | none => (s, .err "job not found")
    | some job =>
      if job.status = some "running" then (s, .err "job already running")
      else if job.status ≠ some "pending" then (s, .err "job not runnable")
      else
        let job2 := { job with status := some "running", startedAt := some t }
        ({ hash := hset s.hash jobID job2, queue := rest },
         .ok jobID job.command)

/-- `cancel-job.lua`, the one-key variant actually wired up by
src/queue.js (`numberOfKeys: 1`, so only the hash key is bound): if the
id is not in the hash return `"not_found"`; otherwise unconditionally set
`status = "cancelled"` and `cancelledAt`, `HSET` the record back and
return `"cancelled"`.  It never touches the queue and never inspects the
current status. -/
def cancelJob (s : Store) (id cancelledAt : String) : Store × String :=
  match hget s.hash id with
  | none => (s, "not_found")
  | some job =>
    let job2 := { job with status := some "cancelled",
                           cancelledAt := some cancelledAt }
    ({ s with hash := hset s.hash id job2 }, "cancelled")

/-- `cancel-job.lua`, the two-key variant (hash and queue keys): same as
`cancelJob` but it additionally runs `LREM queue 0 id`, removing every
occurrence of the id from the queue.  It still performs no status check
and returns only `"not_found"` or `"cancelled"`. -/
def cancelJobQueue (s : Store) (id cancelledAt : String) : Store × String :=
  match hget s.hash id with
  | none => (s, "not_found")
  | some job =>
    let job2 := { job with status := some "cancelled",
                           cancelledAt := some cancelledAt }
    ({ hash := hset s.hash id job2,
       queue := s.queue.filter (fun q => q ≠ id) }, "cancelled")

/-- The worker's completion step (worker.js, the `exec` callback inside
`runWorker`): after the subprocess exits it runs
`HSET jobs:hash jobID JSON.stringify({command, createdAt: new Date(),
status: err ? "failed" : "succeeded", finishedAt, output})` —
unconditionally overwriting whatever record is stored, with a record
that carries no `startedAt` and no `cancelledAt`. -/
def completePayload (command : String) (failed : Bool)
    (createdAt finishedAt output : String) : JobRec :=
  { command := command, createdAt := createdAt,
    status := some (if failed then "failed" else "succeeded"),
    finishedAt := some finishedAt, output := some output }

def completeJob (s : Store) (id command : String) (failed : Bool)
    (createdAt finishedAt output : String) : Store :=
  { s with
    hash := hset s.hash id
              (completePayload command failed createdAt finishedAt output) }

/-- One atomic engine operation, with its wall-clock / id parameters made
explicit.  A concurrent execution is an arbitrary interleaving of these
atomic units, i.e. a `List Op`. -/
inductive Op where
  | submit (id command createdAt : String)
  | claim (t : Nat)
  | cancel (id cancelledAt : String)
  | complete (id command : String) (failed : Bool)
      (createdAt finishedAt output : String)
deriving Repr, DecidableEq

/-- The observable result of one engine operation. -/
inductive StepRes where
  | submitRes (r : String)
  | claimOk (jobID command : String)
  | claimErr (e : String)
  | cancelRes (r : String)
  | completeRes
deriving Repr, DecidableEq

/-- Execute one atomic operation against the store. -/
def step (s : Store) : Op → Store × StepRes
  | .submit id cmd created =>
    let p := submitJob s id cmd created
    (p.1, .submitRes p.2)
  | .claim t =>
    match processJobs s t with
    | (s', .ok id cmd) => (s', .claimOk id cmd)
    | (s', .err e) => (s', .claimErr e)
  | .cancel id t =>
    let p := cancelJob s id t
    (p.1, .cancelRes p.2)
  | .complete id cmd failed created fin out =>
    (completeJob s id cmd failed created fin out, .completeRes)

/-- Run a list of operations from a store, returning the final store. -/
def run (s : Store) : List Op → Store
  | [] => s
  | o :: ops => run (step s o).1 ops

/-- The job ids handed out by the `claim` steps of a run, in order. -/
def claimedIds (s : Store) : List Op → List String
  | [] => []
  | o :: ops =>
    match (step s o).2 with
    | .claimOk id _ => id :: claimedIds (step s o).1 ops
    | _ => claimedIds (step s o).1 ops

/-- The key invariant behind the single-claim property: the id has a
record in the hash and that record's status is not `"pending"`. -/
def nonPending (s : Store) (id : String) : Prop :=
  ∃ j, hget s.hash id = some j ∧ j.status ≠ some "pending"

/-! ## Concrete stores used in witnesses and counterexamples -/

def jobC1pending : JobRec :=
  { command := "echo b", createdAt := "t0", status := some "pending" }

def storeC1cex : Store :=
  { hash := [("b", jobC1pending)], queue := ["a", "b"] }

def jobC1w : JobRec :=
  { command := "echo a", createdAt := "t0", status := some "pending" }

def storeC1w : Store := { hash := [("a", jobC1w)], queue := ["a"] }

def jobC3succ : JobRec :=
  { command := "c3", createdAt := "t0", status := some "succeeded" }

def storeC3succ : Store := { hash := [("j", jobC3succ)], queue := [] }

def jobC3canc : JobRec :=
  { command := "c3", createdAt := "t0", status := some "cancelled" }

def storeC3canc : Store := { hash := [("k", jobC3canc)], queue := [] }

def jobC4succ : JobRec :=
  { command := "c4", createdAt := "t0", status := some "succeeded" }

def storeC4succ : Store := { hash := [("j", jobC4succ)], queue := [] }

def jobC4pend : JobRec :=
  { command := "c4w", createdAt := "t0", status := some "pending" }

def storeC4pend : Store := { hash := [("j", jobC4pend)], queue := ["j"] }

def jobC5pending : JobRec :=
  { command := "c5", createdAt := "t0", status := some "pending" }

def storeC5 : Store := { hash := [("j", jobC5pending)], queue := ["j"] }

def jobC6canc : JobRec :=
  { command := "c6a", createdAt := "t0", status := some "cancelled" }

def jobC6pend : JobRec :=
  { command := "c6b", createdAt := "t0", status := some "pending" }

def storeC6cex : Store :=
  { hash := [("a", jobC6canc), ("b", jobC6pend)], queue := ["a", "b"] }

def jobC6run : JobRec :=
  { command := "c6w", createdAt := "t0", status := some "running" }

def storeC6w : Store := { hash := [("x", jobC6run)], queue := ["x"] }

def opsC9submit : List Op :=
  [Op.submit "A" "cmdA" "t0", Op.submit "B" "cmdB" "t0",
   Op.submit "C" "cmdC" "t0"]

def opsC9 : List Op := opsC9submit ++ [Op.claim 0, Op.claim 1, Op.claim 2]

/-! ## Basic lemmas about the hash primitives -/

theorem hget_hset_same (h : List (String × JobRec)) (k : String) (v : JobRec) :
    hget (hset h k v) k = some v := by
  induction h with
  | nil => simp [hget, hset]
  | cons a t ih =>
    obtain ⟨k', v'⟩ := a
    by_cases hk : k' = k
    · simp [hget, hset, hk]
    · simp [hget, hset, hk, ih]

theorem hget_hset_ne (h : List (String × JobRec)) (k k' : String)
    (v : JobRec) (hne : k' ≠ k) : hget (hset h k v) k' = hget h k' := by
  have hkk : ¬ (k = k') := fun hh => hne hh.symm
  induction h with
  | nil => simp [hget, hset, hkk]
  | cons a t ih =>
    obtain ⟨a1, a2⟩ := a
    by_cases hk : a1 = k
    · have ha1 : ¬ (a1 = k') := by rw [hk]; exact hkk
      simp [hget, hset, hk, hkk, ha1]
    · simp only [hset, if_neg hk]
      by_cases hk' : a1 = k'
      · simp [hget, hk']
      · simp [hget, hk', ih]

theorem hexists_iff (h : List (String × JobRec)) (k : String) :
    hexists h k = true ↔ ∃ j, hget h k = some j := by
  simp [hexists, Option.isSome_iff_exists]

/-! ## The claim script: case-by-case equations -/

theorem processJobs_nil (hs : List (String × JobRec)) (t : Nat) :
    processJobs ⟨hs, []⟩ t = (⟨hs, []⟩, .err "no job found") := rfl

theorem processJobs_cons_none (hs : List (String × JobRec)) (q : String)
    (rest : List String) (t : Nat) (hj : hget hs q = none) :
    processJobs ⟨hs, q :: rest⟩ t =
      (⟨hs, q :: rest⟩, .err "job not found") := by
  simp [processJobs, hj]

theorem processJobs_cons_running (hs : List (String × JobRec)) (q : String)
    (rest : List String) (t : Nat) (job : JobRec)
    (hj : hget hs q = some job) (hst : job.status = some "running") :
    processJobs ⟨hs, q :: rest⟩ t =
      (⟨hs, q :: rest⟩, .err "job already running") := by
  simp [processJobs, hj, hst]

theorem processJobs_cons_stale (hs : List (String × JobRec)) (q : String)
    (rest : List String) (t : Nat) (job : JobRec)
    (hj : hget hs q = some job) (h1 : job.status ≠ some "running")
    (h2 : job.status ≠ some "pending") :
    processJobs ⟨hs, q :: rest⟩ t =
      (⟨hs, q :: rest⟩, .err "job not runnable") := by
  simp [processJobs, hj, h1, h2]

theorem processJobs_cons_pending (hs : List (String × JobRec)) (q : String)
    (rest : List String) (t : Nat) (job : JobRec)
    (hj : hget hs q = some job) (hst : job.status = some "pending") :
    processJobs ⟨hs, q :: rest⟩ t =
      (⟨hset hs q ({ job with status := some "running", startedAt := some t }),
         rest⟩,
       .ok q job.command) := by
  have h1 : job.status ≠ some "running" := by rw [hst]; simp
  simp [processJobs, hj, h1, hst]

/-- If `process-jobs.lua` returns a job, that job was at the queue head
with a record whose status was exactly `"pending"`, and the script
rewrote that record to `"running"` and popped the head. -/
theorem processJobs_ok (s : Store) (t : Nat) (id cmd : String)
    (h : (processJobs s t).2 = .ok id cmd) :
    ∃ j rest, s.queue = id :: rest ∧ hget s.hash id = some j ∧
      j.status = some "pending" ∧ cmd = j.command ∧
      (processJobs s t).1.queue = rest ∧
      (processJobs s t).1.hash =
        hset s.hash id ({ j with status := some "running", startedAt := some t }) := by
  obtain ⟨hs, qs⟩ := s
  cases qs with
  | nil => rw [processJobs_nil] at h; exact absurd h (by simp)
  | cons q rest =>
    cases hj : hget hs q with
    | none =>
      rw [processJobs_cons_none hs q rest t hj] at h
      exact absurd h (by simp)
    | some job =>
      by_cases hrun : job.status = some "running"
      · rw [processJobs_cons_running hs q rest t job hj hrun] at h
        exact absurd h (by simp)
      · by_cases hpend : job.status = some "pending"
        · rw [processJobs_cons_pending hs q rest t job hj hpend] at h ⊢
          obtain ⟨rfl, rfl⟩ : q = id ∧ job.command = cmd := by
            simpa using h
          exact ⟨job, rest, rfl, hj, hpend, rfl, rfl, rfl⟩
        · rw [processJobs_cons_stale hs q rest t job hj hrun hpend] at h
          exact absurd h (by simp)

/-- If `process-jobs.lua` returns any error object, the store is left
completely unchanged: nothing is popped and no record is written. -/
theorem processJobs_err (s : Store) (t : Nat) (e : String)
    (h : (processJobs s t).2 = .err e) : (processJobs s t).1 = s := by
  obtain ⟨hs, qs⟩ := s
  cases qs with
  | nil => rw [processJobs_nil]
  | cons q rest =>
    cases hj : hget hs q with
    | none => rw [processJobs_cons_none hs q rest t hj]
    | some job =>
      by_cases hrun : job.status = some "running"
      · rw [processJobs_cons_running hs q rest t job hj hrun]
      · by_cases hpend : job.status = some "pending"
        · rw [processJobs_cons_pending hs q rest t job hj hpend] at h
          exact absurd h (by simp)
        · rw [processJobs_cons_stale hs q rest t job hj hrun hpend]

/-! ## Equations for the other atomic operations -/

theorem enqueueJob_exists (s : Store) (id : String) (p : JobRec)
    (h : hexists s.hash id = true) : enqueueJob s id p = (s, "exists") := by
  simp [enqueueJob, h]

theorem enqueueJob_fresh (s : Store) (id : String) (p : JobRec)
    (h : hexists s.hash id = false) :
    enqueueJob s id p =
      (⟨hset s.hash id p, s.queue ++ [id]⟩, "queued") := by
  simp [enqueueJob, h]

theorem cancelJob_not_found (s : Store) (id ct : String)
    (hj : hget s.hash id = none) : cancelJob s id ct = (s, "not_found") := by
  simp [cancelJob, hj]

theorem cancelJob_found (s : Store) (id ct : String) (job : JobRec)
    (hj : hget s.hash id = some job) :
    cancelJob s id ct =
      (⟨hset s.hash id ({ job with status := some "cancelled",
                                   cancelledAt := some ct }), s.queue⟩,
       "cancelled") := by
  simp [cancelJob, hj]

theorem cancelJobQueue_not_found (s : Store) (id ct : String)
    (hj : hget s.hash id = none) :
    cancelJobQueue s id ct = (s, "not_found") := by
  simp [cancelJobQueue, hj]

theorem cancelJobQueue_found (s : Store) (id ct : String) (job : JobRec)
    (hj : hget s.hash id = some job) :
    cancelJobQueue s id ct =
      (⟨hset s.hash id ({ job with status := some "cancelled",
                                   cancelledAt := some ct }),
        s.queue.filter (fun q => q ≠ id)⟩, "cancelled") := by
  simp [cancelJobQueue, hj]

/-! ## The single-claim invariant -/

theorem step_claim_fst (s : Store) (t : Nat) :
    (step s (.claim t)).1 = (processJobs s t).1 := by
  rcases hp : processJobs s t with ⟨s', r⟩
  cases r <;> simp [step, hp]

theorem step_claim_ok_iff (s : Store) (t : Nat) (id cmd : String) :
    (step s (.claim t)).2 = .claimOk id cmd ↔
      (processJobs s t).2 = .ok id cmd := by
  rcases hp : processJobs s t with ⟨s', r⟩
  cases r <;> simp [step, hp]

theorem step_submit_not_claimOk (s : Store) (a b c id cmd : String) :
    (step s (.submit a b c)).2 ≠ .claimOk id cmd := by
  simp [step]

theorem step_cancel_not_claimOk (s : Store) (a b id cmd : String) :
    (step s (.cancel a b)).2 ≠ .claimOk id cmd := by
  simp [step]

theorem step_complete_not_claimOk (s : Store) (a b : String) (f : Bool)
    (c d e id cmd : String) :
    (step s (.complete a b f c d e)).2 ≠ .claimOk id cmd := by
  simp [step]

/-- `add-job.lua` preserves the invariant: an existing id is refused
(`"exists"`), and inserting a fresh id does not touch other records. -/
theorem nonPending_submit (s : Store) (id id' c d : String)
    (h : nonPending s id) : nonPending (submitJob s id' c d).1 id := by
  obtain ⟨j, hj, hst⟩ := h
  unfold submitJob
  cases he : hexists s.hash id' with
  | true =>
    rw [enqueueJob_exists s id' _ he]
    exact ⟨j, hj, hst⟩
  | false =>
    rw [enqueueJob_fresh s id' _ he]
    by_cases hid : id' = id
    · subst hid
      rw [hexists, hj] at he
      exact absurd he (by simp)
    · exact ⟨j, (hget_hset_ne s.hash id' id _ (fun hh => hid hh.symm)).trans hj,
             hst⟩

/-- The claim script can never hand out an id whose record is present
and non-pending. -/
theorem claim_blocked (s : Store) (t : Nat) (id cmd : String)
    (hnp : nonPending s id) : (processJobs s t).2 ≠ .ok id cmd := by
  intro h
  obtain ⟨j, rest, _, hj, hpend, _, _, _⟩ := processJobs_ok s t id cmd h
  obtain ⟨j', hj', hst⟩ := hnp
  rw [hj] at hj'
  cases hj'
  exact hst hpend

/-- A successful claim makes the claimed id non-pending (it becomes
`"running"`). -/
theorem claim_establishes (s : Store) (t : Nat) (id cmd : String)
    (h : (processJobs s t).2 = .ok id cmd) :
    nonPending (processJobs s t).1 id := by
  obtain ⟨j, rest, _, hj, hpend, _, _, hhash⟩ := processJobs_ok s t id cmd h
  refine ⟨{ j with status := some "running", startedAt := some t }, ?_, by simp⟩
  rw [hhash, hget_hset_same]

/-- The claim script preserves the invariant for every id. -/
theorem nonPending_claim (s : Store) (t : Nat) (id : String)
    (h : nonPending s id) : nonPending (processJobs s t).1 id := by
  cases hp : (processJobs s t).2 with
  | ok jobID cmd =>
    obtain ⟨j, rest, _, hj, hpend, _, _, hhash⟩ :=
      processJobs_ok s t jobID cmd hp
    obtain ⟨j', hj', hst⟩ := h
    by_cases hid : jobID = id
    · subst hid
      rw [hj] at hj'
      cases hj'
      exact absurd hpend hst
    · refine ⟨j', ?_, hst⟩
      rw [hhash]
      exact (hget_hset_ne s.hash jobID id _ (fun hh => hid hh.symm)).trans hj'
  | err e =>
    rw [processJobs_err s t e hp]
    exact h

/-- `cancel-job.lua` preserves the invariant (a cancelled record is not
pending). -/
theorem nonPending_cancel (s : Store) (id id' ct : String)
    (h : nonPending s id) : nonPending (cancelJob s id' ct).1 id := by
  obtain ⟨j, hj, hst⟩ := h
  cases hj' : hget s.hash id' with
  | none =>
    rw [cancelJob_not_found s id' ct hj']
    exact ⟨j, hj, hst⟩
  | some job =>
    rw [cancelJob_found s id' ct job hj']
    by_cases hid : id' = id
    · subst hid
      exact ⟨{ job with status := some "cancelled", cancelledAt := some ct },
             hget_hset_same s.hash id' _, by simp⟩
    · exact ⟨j, (hget_hset_ne s.hash id' id _ (fun hh => hid hh.symm)).trans hj,
             hst⟩

/-- The worker completion step preserves the invariant (the overwritten
record is `"succeeded"` or `"failed"`, never `"pending"`). -/
theorem nonPending_complete (s : Store) (id id' cmd : String) (f : Bool)
    (c d e : String) (h : nonPending s id) :
    nonPending (completeJob s id' cmd f c d e) id := by
  obtain ⟨j, hj, hst⟩ := h
  by_cases hid : id' = id
  · subst hid
    refine ⟨completePayload cmd f c d e,
            hget_hset_same s.hash id' _, ?_⟩
    cases f <;> simp [completePayload]
  · exact ⟨j, (hget_hset_ne s.hash id' id _ (fun hh => hid hh.symm)).trans hj,
           hst⟩

/-- Every atomic engine operation preserves the invariant. -/
theorem nonPending_step (s : Store) (o : Op) (id : String)
    (h : nonPending s id) : nonPending (step s o).1 id := by
  cases o with
  | submit a b c => exact nonPending_submit s id a b c h
  | claim t =>
    rw [step_claim_fst]
    exact nonPending_claim s t id h
  | cancel a b => exact nonPending_cancel s id a b h
  | complete a b f c d e => exact nonPending_complete s id a b f c d e h

theorem claimedIds_cons_claimOk (s : Store) (o : Op) (ops : List Op)
    (id cmd : String) (hr : (step s o).2 = .claimOk id cmd) :
    claimedIds s (o :: ops) = id :: claimedIds (step s o).1 ops := by
  simp only [claimedIds]
  rw [hr]

theorem claimedIds_cons_other (s : Store) (o : Op) (ops : List Op)
    (hr : ∀ id cmd, (step s o).2 ≠ .claimOk id cmd) :
    claimedIds s (o :: ops) = claimedIds (step s o).1 ops := by
  simp only [claimedIds]

/-- Once an id is non-pending, no later claim in any interleaving of
engine operations ever hands it out. -/
theorem claimedIds_count_zero (id : String) :
    ∀ (ops : List Op) (s : Store), nonPending s id →
      (claimedIds s ops).count id = 0 := by
  intro ops
  induction ops with
  | nil => intro s _; rfl
  | cons o ops ih =>
    intro s h
    cases hr : (step s o).2 with
    | claimOk jobID cmd =>
      rw [claimedIds_cons_claimOk s o ops jobID cmd hr]
      have hne : ¬ (jobID = id) := by
        intro hh
        subst hh
        cases o with
        | submit a b c => exact step_submit_not_claimOk s a b c jobID cmd hr
        | claim t =>
          exact claim_blocked s t jobID cmd h
            ((step_claim_ok_iff s t jobID cmd).mp hr)
        | cancel a b => exact step_cancel_not_claimOk s a b jobID cmd hr
        | complete a b f c d e =>
          exact step_complete_not_claimOk s a b f c d e jobID cmd hr
      rw [List.count_cons_of_ne (fun hh => hne hh.symm)]
      exact ih (step s o).1 (nonPending_step s o id h)
    | submitRes r =>
      rw [claimedIds_cons_other s o ops (by simp [hr])]
      exact ih (step s o).1 (nonPending_step s o id h)
    | claimErr e =>
      rw [claimedIds_cons_other s o ops (by simp [hr])]
      exact ih (step s o).1 (nonPending_step s o id h)
    | cancelRes r =>
      rw [claimedIds_cons_other s o ops (by simp [hr])]
      exact ih (step s o).1 (nonPending_step s o id h)
    | completeRes =>
      rw [claimedIds_cons_other s o ops (by simp [hr])]
      exact ih (step s o).1 (nonPending_step s o id h)

/-- Across any interleaving of atomic engine operations, from any store,
a given job id is handed out by the claim script at most once. -/
theorem claimedIds_count_le_one (id : String) :
    ∀ (ops : List Op) (s : Store), (claimedIds s ops).count id ≤ 1 := by
  intro ops
  induction ops with
  | nil => intro s; simp [claimedIds]
  | cons o ops ih =>
    intro s
    cases hr : (step s o).2 with
    | claimOk jobID cmd =>
      rw [claimedIds_cons_claimOk s o ops jobID cmd hr]
      by_cases hid : jobID = id
      · subst hid
        have hclaim : ∃ t, o = Op.claim t := by
          cases o with
          | submit a b c =>
            exact absurd hr (step_submit_not_claimOk s a b c jobID cmd)
          | claim t => exact ⟨t, rfl⟩
          | cancel a b =>
            exact absurd hr (step_cancel_not_claimOk s a b jobID cmd)
          | complete a b f c d e =>
            exact absurd hr (step_complete_not_claimOk s a b f c d e jobID cmd)
        obtain ⟨t, rfl⟩ := hclaim
        have hok := (step_claim_ok_iff s t jobID cmd).mp hr
        have hnp := claim_establishes s t jobID cmd hok
        have hz := claimedIds_count_zero jobID ops (step s (.claim t)).1
          (by rw [step_claim_fst]; exact hnp)
        rw [List.count_cons_self, hz]
      · rw [List.count_cons_of_ne (fun hh => hid hh.symm)]
        exact ih (step s o).1
    | submitRes r =>
      rw [claimedIds_cons_other s o ops (by simp [hr])]
      exact ih (step s o).1
    | claimErr e =>
      rw [claimedIds_cons_other s o ops (by simp [hr])]
      exact ih (step s o).1
    | cancelRes r =>
      rw [claimedIds_cons_other s o ops (by simp [hr])]
      exact ih (step s o).1
    | completeRes =>
      rw [claimedIds_cons_other s o ops (by simp [hr])]
      exact ih (step s o).1


/-- If a pending job with a valid record sits at the queue head, the next
run of the claim script returns exactly that job. -/
theorem processJobs_head_pending (s : Store) (t : Nat) (id : String)
    (j : JobRec) (rest : List String) (hq : s.queue = id :: rest)
    (hj : hget s.hash id = some j) (hst : j.status = some "pending") :
    (processJobs s t).2 = .ok id j.command := by
  obtain ⟨hs, qs⟩ := s
  have hq2 : qs = id :: rest := hq
  subst hq2
  have hj2 : hget hs id = some j := hj
  rw [processJobs_cons_pending hs id rest t j hj2 hst]

/-! ## Claim theorems -/

/-- C1 (counterexample): the claim's second half — "if the job is
pending, exactly one of the competing Claim calls receives it" — is
false for the code.  In `storeC1cex` the job `"b"` is pending, yet
across two competing Claim calls nobody ever receives `"b"`: the head
entry `"a"` has no record, so every call returns the error
`job not found` without popping the head, and the queue never advances. -/
theorem C1_pending_job_never_claimed_cex :
    hget storeC1cex.hash "b" = some jobC1pending ∧
    jobC1pending.status = some "pending" ∧
    claimedIds storeC1cex [Op.claim 0, Op.claim 1] = [] :=
  ⟨rfl, rfl, rfl⟩

/-- C1 (amended): across any interleaving of atomic engine operations
(Submit, Claim, Cancel, Complete) from any store, a given job id is
returned by at most one Claim invocation; and a pending job sitting at
the queue head with a valid record is received by the very next Claim
call.  (A pending job buried behind a stale head may never be claimed —
see the counterexample.) -/
theorem C1_single_claim (s : Store) (ops : List Op) (id : String) :
    (claimedIds s ops).count id ≤ 1 ∧
    (∀ (t : Nat) (j : JobRec) (rest : List String),
      s.queue = id :: rest → hget s.hash id = some j →
      j.status = some "pending" →
      (processJobs s t).2 = .ok id j.command) :=
  ⟨claimedIds_count_le_one id ops s,
   fun t j rest hq hj hst => processJobs_head_pending s t id j rest hq hj hst⟩

/-- C1 (witness): instantiation of the amended claim on a one-element
pending queue and a single Claim. -/
theorem C1_single_claim_witness :
    (claimedIds storeC1w [Op.claim 0]).count "a" ≤ 1 ∧
    (processJobs storeC1w 0).2 = .ok "a" jobC1w.command :=
  ⟨(C1_single_claim storeC1w [Op.claim 0] "a").1,
   (C1_single_claim storeC1w [Op.claim 0] "a").2 0 jobC1w [] rfl rfl rfl⟩

/-- C2: the invariant "id is in the pending queue iff its record's
status is `pending`" is already false in the very first reachable
state: `submitJob` pushes the id onto the queue but stores a record with
no `status` field at all (the payload is `{command, createdAt}` only),
so the queued job's status is not `pending`.  The repo's own test suite
expects `job.status` to be `'pending'` after submission. -/
theorem C2_queue_iff_pending_fails :
    (submitJob Store.empty "job-1" "echo hi" "t0").2 = "queued" ∧
    (submitJob Store.empty "job-1" "echo hi" "t0").1.queue = ["job-1"] ∧
    hget (submitJob Store.empty "job-1" "echo hi" "t0").1.hash "job-1" =
      some (submitPayload "echo hi" "t0") ∧
    (submitPayload "echo hi" "t0").status ≠ some "pending" :=
  ⟨rfl, rfl, rfl, by decide⟩

/-- C3: terminal statuses are not preserved by the code.  First,
`cancel-job.lua` flips a `succeeded` record to `cancelled` (it checks
only `HEXISTS`, never the current status).  Second, the worker's
completion step overwrites a `cancelled` record with a fresh
`succeeded` record (its `HSET` replaces the whole JSON object without
reading the stored status), exactly the overwrite the claim rules out. -/
theorem C3_terminal_not_preserved :
    ((cancelJob storeC3succ "j" "t1").2 = "cancelled" ∧
      hget (cancelJob storeC3succ "j" "t1").1.hash "j" =
        some ({ jobC3succ with status := some "cancelled",
                               cancelledAt := some "t1" })) ∧
    (hget (completeJob storeC3canc "k" "c3" false "t2" "t3" "out").hash "k" =
        some (completePayload "c3" false "t2" "t3" "out") ∧
      (completePayload "c3" false "t2" "t3" "out").status =
        some "succeeded") :=
  ⟨⟨rfl, rfl⟩, rfl, rfl⟩

/-- C4: `cancel-job.lua` never returns `already_completed` and never
distinguishes `cancelled_from_queue` from `cancelled_running`: on a
`succeeded` record both script variants answer `"cancelled"` and
overwrite the record, and the one-key variant wired up by queue.js
leaves a cancelled pending job sitting in the queue. -/
theorem C4_cancel_ignores_terminal_status :
    jobC4succ.status = some "succeeded" ∧
    (cancelJob storeC4succ "j" "t1").2 = "cancelled" ∧
    (cancelJobQueue storeC4succ "j" "t1").2 = "cancelled" ∧
    hget (cancelJob storeC4succ "j" "t1").1.hash "j" =
      some ({ jobC4succ with status := some "cancelled",
                             cancelledAt := some "t1" }) ∧
    (cancelJob storeC4pend "j" "t1").2 = "cancelled" ∧
    (cancelJob storeC4pend "j" "t1").1.queue = ["j"] :=
  ⟨rfl, rfl, rfl, rfl, rfl, rfl⟩

/-- C5: cancellation is not idempotent in the code: a second
`Cancel(id)` on an already-cancelled job again answers `"cancelled"`
(never `already_cancelled`), because `cancel-job.lua` never inspects the
stored status.  The repo's own tests flag this as a bug. -/
theorem C5_cancel_not_idempotent :
    (cancelJob storeC5 "j" "t1").2 = "cancelled" ∧
    (cancelJob (cancelJob storeC5 "j" "t1").1 "j" "t2").2 = "cancelled" ∧
    ("cancelled" : String) ≠ "already_cancelled" :=
  ⟨rfl, rfl, by decide⟩

/-- C6 (counterexample): a stale (non-pending) queue head is not
discarded and the next head is not retried: with a cancelled job at the
head and a pending job behind it, the claim script returns the error
`job not runnable`, leaves the store untouched, and no number of
further Claim calls ever returns the pending job. -/
theorem C6_stale_head_not_skipped_cex :
    jobC6canc.status = some "cancelled" ∧
    jobC6pend.status = some "pending" ∧
    processJobs storeC6cex 0 = (storeC6cex, .err "job not runnable") ∧
    claimedIds storeC6cex [Op.claim 0, Op.claim 1] = [] :=
  ⟨rfl, rfl, rfl, rfl⟩

/-- C6 (amended): on an empty queue the claim script returns the error
object `no job found` with the store unchanged (the worker's loop
silently treats every error result as "nothing to do"); and when the
head's record exists but is not `pending`, the script returns an error
object (`job already running` or `job not runnable`) and leaves the
store — including the stale head — unchanged; it neither discards the
entry nor retries with the next head. -/
theorem C6_claim_empty_and_stale (s : Store) (t : Nat) :
    (s.queue = [] → processJobs s t = (s, .err "no job found")) ∧
    (∀ (q : String) (rest : List String) (j : JobRec),
      s.queue = q :: rest → hget s.hash q = some j →
      j.status ≠ some "pending" →
      (∃ e, (processJobs s t).2 = .err e) ∧ (processJobs s t).1 = s) := by
  constructor
  · intro hq
    obtain ⟨hs, qs⟩ := s
    have hq2 : qs = [] := hq
    subst hq2
    exact processJobs_nil hs t
  · intro q rest j hq hj hst
    obtain ⟨hs, qs⟩ := s
    have hq2 : qs = q :: rest := hq
    subst hq2
    have hj2 : hget hs q = some j := hj
    by_cases hrun : j.status = some "running"
    · rw [processJobs_cons_running hs q rest t j hj2 hrun]
      exact ⟨⟨"job already running", rfl⟩, rfl⟩
    · rw [processJobs_cons_stale hs q rest t j hj2 hrun hst]
      exact ⟨⟨"job not runnable", rfl⟩, rfl⟩

/-- C6 (witness): the amended claim applied to the empty store and to a
store whose head is a running job. -/
theorem C6_claim_empty_and_stale_witness :
    processJobs Store.empty 0 = (Store.empty, .err "no job found") ∧
    ((∃ e, (processJobs storeC6w 0).2 = .err e) ∧
      (processJobs storeC6w 0).1 = storeC6w) :=
  ⟨(C6_claim_empty_and_stale Store.empty 0).1 rfl,
   (C6_claim_empty_and_stale storeC6w 0).2 "x" [] jobC6run rfl rfl
     (by decide)⟩

/-- C7: Submit performs no input validation at all: the empty command is
accepted, a record is created and the id is pushed onto the queue — no
`InvalidInput` failure exists anywhere in the code.  The repo's own
tests flag this missing validation as a bug. -/
theorem C7_empty_command_accepted :
    (submitJob Store.empty "job-1" "" "t0").2 = "queued" ∧
    (submitJob Store.empty "job-1" "" "t0").1.queue = ["job-1"] ∧
    hget (submitJob Store.empty "job-1" "" "t0").1.hash "job-1" =
      some (submitPayload "" "t0") :=
  ⟨rfl, rfl, rfl⟩

/-- C8: a successful Submit does NOT write `status = pending` (nor any
`version` field): the stored payload is exactly
`{command, createdAt}`, so the freshly submitted job's record has no
status at all, while its id is already in the queue. -/
theorem C8_submit_writes_no_status :
    (submitJob Store.empty "job-1" "echo hi" "t0").2 = "queued" ∧
    hget (submitJob Store.empty "job-1" "echo hi" "t0").1.hash "job-1" =
      some (submitPayload "echo hi" "t0") ∧
    (submitPayload "echo hi" "t0").status = none :=
  ⟨rfl, rfl, rfl⟩

/-- C9: FIFO claiming fails outright on the code: after submitting A, B,
C (in that order) every Claim call returns the error `job not runnable`
— no job is ever claimed, let alone in order — because `submitJob`
stores records without the `pending` status that the claim script
requires. -/
theorem C9_fifo_vacuous :
    claimedIds Store.empty opsC9 = [] ∧
    (processJobs (run Store.empty opsC9submit) 0).2 =
      .err "job not runnable" :=
  ⟨rfl, rfl⟩

/-- C10: whenever the LINDEX-based claim script returns any error
result (`no job found`, `job not found`, `job already running`,
`job not runnable`), the store — queue and all job records — is left
completely unchanged; in particular a stale head is not popped. -/
theorem C10_claim_error_leaves_store (s : Store) (t : Nat) (e : String)
    (h : (processJobs s t).2 = .err e) : (processJobs s t).1 = s :=
  processJobs_err s t e h

/-- C10 (witness): the empty store yields `no job found` and is
unchanged. -/
theorem C10_claim_error_leaves_store_witness :
    (processJobs Store.empty 0).2 = .err "no job found" ∧
    (processJobs Store.empty 0).1 = Store.empty :=
  ⟨rfl, C10_claim_error_leaves_store Store.empty 0 "no job found" rfl⟩

end Synq
